import Mathlib

/-!
Verification of the `AudioPreprocessor` pipeline
(`PreprocessingForTTS/ProcessAudio.py`).

Shallow embedding conventions:

* A float sample is modelled as `Option ℝ`: `some r` is a finite float
  value, `none` is a non-finite float (NaN or ±Inf).  Arithmetic on
  samples propagates `none`, matching IEEE semantics for NaN; division
  by zero produces `none` (numpy emits NaN or ±Inf there).
* A numpy array is modelled by `ND α` with one constructor per
  dimensionality that the claims need (0-D scalar, 1-D, 2-D, 3-D).
* External DSP collaborators (torchaudio `Vad` and `Resample`,
  pyloudnorm's meter and dB→linear gain, the windowed-DFT magnitude
  inside `librosa.stft`, and the mel filter weights of
  `librosa.filters.mel`) are black boxes per the specification; they are
  gathered in a `Collab` record, and every theorem quantifies over them.
  Only their documented shapes/structure (framing, padding, matrix
  shapes) are modelled concretely, translated from the library calls the
  source makes.
-/

namespace ProcessAudio

/-- A float sample: `some r` finite, `none` non-finite (NaN or Inf). -/
abbrev OptR := Option ℝ

/-- Float addition, NaN-propagating. -/
def oadd : OptR → OptR → OptR
  | some x, some y => some (x + y)
  | _, _ => none

/-- Float multiplication, NaN-propagating. -/
def omul : OptR → OptR → OptR
  | some x, some y => some (x * y)
  | _, _ => none

/-- Float absolute value (`numpy.abs`), NaN-propagating. -/
def oabs : OptR → OptR := Option.map (fun x => |x|)

/-- Float max (`numpy.amax` combine step): NaN propagates. -/
def omax : OptR → OptR → OptR
  | some x, some y => some (max x y)
  | _, _ => none

/-- Float division (`numpy.divide`): division by zero yields a
non-finite float (NaN for 0/0, ±Inf otherwise), modelled as `none`. -/
noncomputable def odiv : OptR → OptR → OptR
  | some x, some y => if y = 0 then none else some (x / y)
  | _, _ => none

/-- Sum of a list of float samples. -/
def osum (l : List OptR) : OptR := l.foldr oadd (some 0)

/-- `numpy.amax` over a 1-D array (callers never pass an empty array;
on `[]` numpy raises, modelled as `none`). -/
def amax : List OptR → OptR
  | [] => none
  | a :: t => t.foldl omax a

/-- A numpy ndarray of element type `α`, by dimensionality. -/
inductive ND (α : Type) where
  | scalar (v : α)
  | vec (xs : List α)
  | mat (rows : List (List α))
  | cube (xss : List (List (List α)))
deriving DecidableEq

/-- `len(x.shape)` of an `ND` array. -/
def ndim {α : Type} : ND α → ℕ
  | ND.scalar _ => 0
  | ND.vec _ => 1
  | ND.mat _ => 2
  | ND.cube _ => 3

/-- Elementwise map over an `ND` array. -/
def ndMap {α β : Type} (f : α → β) : ND α → ND β
  | ND.scalar v => ND.scalar (f v)
  | ND.vec xs => ND.vec (xs.map f)
  | ND.mat rows => ND.mat (rows.map (List.map f))
  | ND.cube xss => ND.cube (xss.map (List.map (List.map f)))

/-- The external DSP collaborators used by one `AudioPreprocessor`
instance (each is constructed from the fixed input rate, so a `Collab`
value corresponds to one constructed preprocessor):

* `vadFn`: `torchaudio.transforms.Vad`, the voice-activity detector
  that trims leading silence;
* `resampleCore`: `torchaudio.transforms.Resample` from an input rate
  to an output rate;
* `meterLoudness`: `pyloudnorm.Meter.integrated_loudness`;
* `loudnessGain`: the scalar linear gain `pyln.normalize.loudness`
  applies, as a function of (measured loudness, target loudness);
* `dftMag`: magnitude of one bin of the Hann-windowed DFT of one frame,
  inside `librosa.stft`;
* `melWeight`: one entry of the `librosa.filters.mel` basis, as a
  function of (sr, n_fft, n_mels, fmin, fmax, mel row, fft bin). -/
structure Collab where
  vadFn : List OptR → List OptR
  resampleCore : ℕ → ℕ → List OptR → List OptR
  meterLoudness : List OptR → ℝ
  loudnessGain : ℝ → ℝ → ℝ
  dftMag : List ℝ → ℕ → ℝ
  melWeight : ℕ → ℕ → ℕ → ℝ → ℝ → ℕ → ℕ → ℝ

/-- Constructor configuration of `AudioPreprocessor.__init__`:
`input_sr`, `output_sr` (optional), `hop_length`, `n_fft`,
`melspec_buckets`. -/
structure APConfig where
  input_sr : ℕ
  output_sr : Option ℕ
  hop_length : ℕ
  n_fft : ℕ
  mel_buckets : ℕ
deriving DecidableEq

/-- `AudioPreprocessor.to_mono`: if the array is 2-D
(`len(x.shape) == 2`) return `librosa.to_mono(numpy.transpose(x))`,
i.e. the per-frame mean over channels (the input is frames × channels,
the transpose is channels × frames, and `librosa.to_mono` takes the
mean over axis 0); otherwise return the array unchanged. -/
noncomputable def to_mono (x : ND OptR) : ND OptR :=
  match x with
  | ND.mat rows => ND.vec (rows.map (fun r => odiv (osum r) (some (r.length : ℝ))))
  | _ => x

/-- `AudioPreprocessor.normalize_loudness`: measure integrated loudness
with the pyloudnorm meter, rescale with
`pyln.normalize.loudness(audio, loudness, -30.0)` (a scalar gain
determined by the measured and target loudness, applied samplewise),
then divide by the peak absolute amplitude
(`numpy.divide(loud_normed, numpy.amax(numpy.abs(loud_normed)))`). -/
noncomputable def normalize_loudness (E : Collab) (audio : List OptR) : List OptR :=
  let loudness := E.meterLoudness audio
  let loud_normed := audio.map (fun v => omul v (some (E.loudnessGain loudness (-30))))
  let peak := amax (loud_normed.map oabs)
  loud_normed.map (fun v => odiv v peak)

/-- `AudioPreprocessor.cut_silence_from_beginning`: apply the
voice-activity detector (the `torch.Tensor` conversion is the
identity on the sample values). -/
def cut_silence_from_beginning (E : Collab) (audio : List OptR) : List OptR :=
  E.vadFn audio

/-- The `self.resample` member chosen in `AudioPreprocessor.__init__`:
`torchaudio.transforms.Resample(input_sr, output_sr)` when `output_sr`
is not `None` and differs from `input_sr`, the identity
(`lambda x: x`) otherwise. -/
def mkResample (E : Collab) (cfg : APConfig) : List OptR → List OptR :=
  match cfg.output_sr with
  | some o => if o ≠ cfg.input_sr then E.resampleCore cfg.input_sr o else id
  | none => id

/-- `AudioPreprocessor.normalize_audio`: `to_mono`, then
`normalize_loudness`, then `cut_silence_from_beginning`, then
`self.resample`, in that order and nothing else.  When `to_mono` does
not yield a 1-D array the pyloudnorm meter (which requires 1-D/2-D
audio) makes the call fail; that failure is modelled as `none`. -/
noncomputable def normalize_audio (E : Collab) (cfg : APConfig) (audio : ND OptR) :
    Option (List OptR) :=
  match to_mono audio with
  | ND.vec xs =>
      some (mkResample E cfg (cut_silence_from_beginning E (normalize_loudness E xs)))
  | _ => none

/-- A collaborator instance with trivial fields, used to instantiate
theorems at concrete inputs. -/
noncomputable def trivCollab : Collab where
  vadFn := id
  resampleCore := fun _ _ => id
  meterLoudness := fun _ => -30
  loudnessGain := fun _ _ => 1
  dftMag := fun _ _ => 0
  melWeight := fun _ _ _ _ _ _ _ => 0

/-- A concrete configuration (16 kHz in and out, default hop/fft/mel
parameters) for instantiating theorems. -/
def cfg16 : APConfig where
  input_sr := 16000
  output_sr := some 16000
  hop_length := 256
  n_fft := 1024
  mel_buckets := 80

/-- C1: `normalize_audio` applies exactly, in order: mono mixdown,
loudness normalization (rescale to −30 LUFS then divide by the peak),
voice-activity trimming, resampling — and nothing else; the resampling
step is the identity when the output rate is unset or equals the input
rate. -/
theorem normalize_audio_steps (E : Collab) (cfg : APConfig) (audio : ND OptR)
    (xs : List OptR) (h : to_mono audio = ND.vec xs) :
    normalize_audio E cfg audio
      = some (mkResample E cfg (cut_silence_from_beginning E (normalize_loudness E xs)))
    ∧ ((cfg.output_sr = none ∨ cfg.output_sr = some cfg.input_sr) →
        mkResample E cfg = id) := by
  constructor
  · rw [normalize_audio, h]
  · intro hid
    rcases hid with hnone | heq
    · rw [mkResample, hnone]
    · rw [mkResample, heq]
      simp

/-- Witness for C1: the pipeline equation at a concrete 1-sample
waveform and a configuration whose output rate equals its input rate. -/
theorem normalize_audio_steps_witness :
    normalize_audio trivCollab cfg16 (ND.vec [some 1])
      = some (mkResample trivCollab cfg16
          (cut_silence_from_beginning trivCollab (normalize_loudness trivCollab [some 1])))
    ∧ ((cfg16.output_sr = none ∨ cfg16.output_sr = some cfg16.input_sr) →
        mkResample trivCollab cfg16 = id) :=
  normalize_audio_steps trivCollab cfg16 (ND.vec [some 1]) [some 1] rfl

/-- C2 (code bug): on an all-zero waveform the loudness-normalized
signal is still all-zero, its peak is 0, and `normalize_loudness`
divides by that zero peak unconditionally, so every output sample is
non-finite (0/0 is NaN); there is no floor policy that skips the
rescaling.  The NaN samples then flow into the rest of
`normalize_audio`. -/
theorem normalize_loudness_silence_nan (E : Collab) (cfg : APConfig) :
    normalize_loudness E [some 0, some 0, some 0, some 0] = [none, none, none, none]
    ∧ normalize_audio E cfg (ND.vec [some 0, some 0, some 0, some 0])
        = some (mkResample E cfg (E.vadFn [none, none, none, none])) := by
  have h : normalize_loudness E [some 0, some 0, some 0, some 0]
      = [none, none, none, none] := by
    simp [normalize_loudness, omul, oabs, amax, omax, odiv]
  refine ⟨h, ?_⟩
  rw [normalize_audio]
  simp only [to_mono]
  rw [cut_silence_from_beginning, h]

/-- C6 (code bug): `to_mono` returns an array whose dimensionality is
neither 1 nor 2 unchanged — a 3-D array passes straight through the
mono-mixdown step with no error of any kind. -/
theorem to_mono_silent_passthrough :
    to_mono (ND.cube [[[some 0, some 0]]]) = ND.cube [[[some 0, some 0]]]
    ∧ ndim (ND.cube [[[(some 0 : OptR), some 0]]]) ≠ 1
    ∧ ndim (ND.cube [[[(some 0 : OptR), some 0]]]) ≠ 2 := by
  refine ⟨rfl, by simp [ndim], by simp [ndim]⟩

/-- C8: `to_mono` is the identity on 1-D arrays, and is idempotent on
1-D and 2-D arrays. -/
theorem to_mono_idempotent :
    (∀ xs : List OptR, to_mono (ND.vec xs) = ND.vec xs)
    ∧ ∀ x : ND OptR, ndim x = 1 ∨ ndim x = 2 → to_mono (to_mono x) = to_mono x := by
  constructor
  · intro xs
    rfl
  · intro x hx
    cases x with
    | scalar v => simp [ndim] at hx
    | vec xs => rfl
    | mat rows => rfl
    | cube xss => simp [ndim] at hx

/-- Witness for C8: idempotence instantiated at a concrete 1-D and a
concrete 2-D array. -/
theorem to_mono_idempotent_witness :
    to_mono (ND.vec [some 1, some 2]) = ND.vec [some 1, some 2]
    ∧ to_mono (to_mono (ND.mat [[some 1, some 2]])) = to_mono (ND.mat [[some 1, some 2]]) :=
  ⟨to_mono_idempotent.1 [some 1, some 2],
   to_mono_idempotent.2 (ND.mat [[some 1, some 2]]) (Or.inr rfl)⟩

/-- Truncation toward zero: the `.to(torch.int64)` cast that torchaudio
applies to the quantized value. -/
noncomputable def truncInt (r : ℝ) : ℤ := if r < 0 then -⌊-r⌋ else ⌊r⌋

/-- torchaudio `MuLawEncoding` (256 quantization channels), companding
step: `sign(x) * log1p(255 * |x|) / log1p(255)`; note that
`log1p(255) = log 256`. -/
noncomputable def muCompand (x : ℝ) : ℝ :=
  Real.sign x * Real.log (1 + 255 * |x|) / Real.log 256

/-- torchaudio `MuLawEncoding`: quantize the companded value with
`((x_mu + 1) / 2 * 255 + 0.5).to(torch.int64)`. -/
noncomputable def mu_encode (x : ℝ) : ℤ :=
  truncInt ((muCompand x + 1) / 2 * 255 + 1 / 2)

/-- torchaudio `MuLawDecoding` (256 quantization channels):
`y = code / 255 * 2 - 1`, then `sign(y) * (exp(|y| * log1p(255)) - 1) / 255`. -/
noncomputable def mu_decode (c : ℤ) : ℝ :=
  Real.sign ((c : ℝ) / 255 * 2 - 1) *
    (Real.exp (|(c : ℝ) / 255 * 2 - 1| * Real.log 256) - 1) / 255

/-- `AudioPreprocessor.apply_mu_law` (`self.mu_encode` on a float
tensor): elementwise mu-law encoding to int64 codes. -/
noncomputable def apply_mu_law (x : ND OptR) : ND (Option ℤ) :=
  ndMap (Option.map mu_encode) x

lemma abs_sign_le_one (x : ℝ) : |Real.sign x| ≤ 1 := by
  rcases Real.sign_apply_eq x with h | h | h <;> rw [h] <;> norm_num

lemma log256_pos : (0:ℝ) < Real.log 256 := Real.log_pos (by norm_num)

lemma muCompand_abs_le_one (x : ℝ) (h : |x| ≤ 1) : |muCompand x| ≤ 1 := by
  have h1 : (1:ℝ) ≤ 1 + 255 * |x| := by nlinarith [abs_nonneg x]
  have h2 : 1 + 255 * |x| ≤ 256 := by nlinarith
  have hq0 : 0 ≤ Real.log (1 + 255 * |x|) := Real.log_nonneg h1
  have hq1 : Real.log (1 + 255 * |x|) ≤ Real.log 256 :=
    (Real.log_le_log_iff (by linarith) (by norm_num)).mpr h2
  rw [muCompand, abs_div, abs_mul, abs_of_nonneg hq0, abs_of_pos log256_pos,
    div_le_one log256_pos]
  calc |Real.sign x| * Real.log (1 + 255 * |x|) ≤ 1 * Real.log 256 :=
        mul_le_mul (abs_sign_le_one x) hq1 hq0 zero_le_one
    _ = Real.log 256 := one_mul _

/-- C9 (amended): mu-law codes of samples in `[-1, 1]` lie in
`[0, 255]`. -/
theorem mu_encode_code_range (x : ℝ) (h : |x| ≤ 1) :
    0 ≤ mu_encode x ∧ mu_encode x ≤ 255 := by
  obtain ⟨hc1, hc2⟩ := abs_le.mp (muCompand_abs_le_one x h)
  have hA0 : (0:ℝ) ≤ (muCompand x + 1) / 2 * 255 + 1 / 2 := by linarith
  have hA1 : (muCompand x + 1) / 2 * 255 + 1 / 2 < 256 := by linarith
  have henc : mu_encode x = ⌊(muCompand x + 1) / 2 * 255 + 1 / 2⌋ := by
    rw [mu_encode, truncInt, if_neg (not_lt.mpr hA0)]
  constructor
  · rw [henc]
    exact Int.floor_nonneg.mpr hA0
  · rw [henc]
    have hlt : ⌊(muCompand x + 1) / 2 * 255 + 1 / 2⌋ < 256 := by
      rw [Int.floor_lt]
      push_cast
      exact hA1
    omega

/-- Witness for the amended C9: code range at the concrete sample 1/2. -/
theorem mu_encode_code_range_witness :
    0 ≤ mu_encode (1/2 : ℝ) ∧ mu_encode (1/2 : ℝ) ≤ 255 :=
  mu_encode_code_range (1/2)
    (by rw [abs_of_nonneg (by norm_num : (0:ℝ) ≤ 1/2)]; norm_num)

lemma log_mul_cert {a : ℝ} {p q : ℕ} (ha : 0 < a) (h : (256:ℝ)^p ≤ a^q) :
    (p : ℝ) * Real.log 256 ≤ (q : ℝ) * Real.log a := by
  have h2 := (Real.log_le_log_iff (by positivity) (by positivity)).mpr h
  rwa [Real.log_pow, Real.log_pow] at h2

lemma cert_2509 : (256:ℝ)^(254:ℕ) ≤ (250.9:ℝ)^(255:ℕ) := by
  have hn : ((256:ℕ)^254 * 10^255 : ℕ) ≤ 2509^255 := by norm_num
  have hr : ((256:ℝ))^(254:ℕ) * (10:ℝ)^(255:ℕ) ≤ (2509:ℝ)^(255:ℕ) := by exact_mod_cast hn
  have h10 : (250.9:ℝ) = 2509 / 10 := by norm_num
  rw [h10, div_pow, le_div_iff₀ (by positivity)]
  exact hr

lemma cert_24835 : (256:ℝ)^(252:ℕ) ≤ (248.35:ℝ)^(255:ℕ) := by
  have hn : ((256:ℕ)^252 * 100^255 : ℕ) ≤ 24835^255 := by norm_num
  have hr : ((256:ℝ))^(252:ℕ) * (100:ℝ)^(255:ℕ) ≤ (24835:ℝ)^(255:ℕ) := by exact_mod_cast hn
  have h100 : (248.35:ℝ) = 24835 / 100 := by norm_num
  rw [h100, div_pow, le_div_iff₀ (by positivity)]
  exact hr

lemma cert_24635 : (256:ℝ)^(253:ℕ) ≤ (246.35:ℝ)^(255:ℕ) := by
  have hn : ((256:ℕ)^253 * 100^255 : ℕ) ≤ 24635^255 := by norm_num
  have hr : ((256:ℝ))^(253:ℕ) * (100:ℝ)^(255:ℕ) ≤ (24635:ℝ)^(255:ℕ) := by exact_mod_cast hn
  have h100 : (246.35:ℝ) = 24635 / 100 := by norm_num
  rw [h100, div_pow, le_div_iff₀ (by positivity)]
  exact hr

lemma mu_encode_floor (x : ℝ) (hx : 0 < x) :
    mu_encode x = ⌊(Real.log (1 + 255 * x) / Real.log 256 + 1) / 2 * 255 + 1 / 2⌋ := by
  have hc : muCompand x = Real.log (1 + 255 * x) / Real.log 256 := by
    rw [muCompand, Real.sign_of_pos hx, abs_of_pos hx, one_mul]
  have hc0 : 0 ≤ muCompand x := by
    rw [hc]
    exact div_nonneg (Real.log_nonneg (by nlinarith)) log256_pos.le
  rw [mu_encode, truncInt, if_neg (not_lt.mpr (by linarith)), hc]

lemma mu_encode_098 : mu_encode (0.98:ℝ) = 255 := by
  rw [mu_encode_floor 0.98 (by norm_num),
    show (1 + 255 * (0.98:ℝ)) = 250.9 from by norm_num]
  have hcge : (254:ℝ)/255 ≤ Real.log 250.9 / Real.log 256 := by
    rw [le_div_iff₀ log256_pos]
    have h := log_mul_cert (by norm_num : (0:ℝ) < 250.9) cert_2509
    push_cast at h
    linarith
  have hcle : Real.log 250.9 / Real.log 256 ≤ 1 := by
    rw [div_le_one log256_pos]
    exact (Real.log_le_log_iff (by norm_num) (by norm_num)).mpr (by norm_num)
  rw [Int.floor_eq_iff]
  push_cast
  constructor <;> linarith

lemma mu_decode_255 : mu_decode 255 = 1 := by
  rw [mu_decode, show ((255:ℤ):ℝ) / 255 * 2 - 1 = 1 from by push_cast; norm_num,
    Real.sign_of_pos one_pos, abs_one, one_mul, one_mul,
    Real.exp_log (by norm_num : (0:ℝ) < 256)]
  norm_num

lemma mu_decode_254_le : mu_decode 254 ≤ 245.35 / 255 := by
  rw [mu_decode, show ((254:ℤ):ℝ) / 255 * 2 - 1 = 253/255 from by push_cast; norm_num,
    Real.sign_of_pos (by norm_num : (0:ℝ) < 253/255),
    abs_of_pos (by norm_num : (0:ℝ) < 253/255), one_mul]
  have hexp : Real.exp (253/255 * Real.log 256) ≤ 246.35 := by
    have h1 : (253:ℝ)/255 * Real.log 256 ≤ Real.log 246.35 := by
      have h := log_mul_cert (by norm_num : (0:ℝ) < 246.35) cert_24635
      push_cast at h
      linarith
    calc Real.exp (253/255 * Real.log 256) ≤ Real.exp (Real.log 246.35) :=
          Real.exp_le_exp.mpr h1
      _ = 246.35 := Real.exp_log (by norm_num)
  linarith

lemma mu_encode_range_Icc (x : ℝ) (h1 : 0.97 ≤ x) (h2 : x ≤ 0.98) :
    mu_encode x = 254 ∨ mu_encode x = 255 := by
  rw [mu_encode_floor x (by linarith)]
  have hmono1 : Real.log 248.35 ≤ Real.log (1 + 255 * x) :=
    (Real.log_le_log_iff (by norm_num) (by linarith)).mpr (by linarith)
  have hmono2 : Real.log (1 + 255 * x) ≤ Real.log 256 :=
    (Real.log_le_log_iff (by linarith) (by norm_num)).mpr (by linarith)
  have hcge : (252:ℝ)/255 ≤ Real.log (1 + 255 * x) / Real.log 256 := by
    rw [le_div_iff₀ log256_pos]
    have h := log_mul_cert (by norm_num : (0:ℝ) < 248.35) cert_24835
    push_cast at h
    linarith
  have hcle : Real.log (1 + 255 * x) / Real.log 256 ≤ 1 := by
    rw [div_le_one log256_pos]
    exact hmono2
  have hfl : (254:ℤ) ≤ ⌊(Real.log (1 + 255 * x) / Real.log 256 + 1) / 2 * 255 + 1/2⌋ := by
    rw [Int.le_floor]
    push_cast
    linarith
  have hfl2 : ⌊(Real.log (1 + 255 * x) / Real.log 256 + 1) / 2 * 255 + 1/2⌋ < 256 := by
    rw [Int.floor_lt]
    push_cast
    linarith
  omega

/-- C9 (counterexample): the mu-law round trip does NOT stay within the
quantization step size (1/256 of the [-1,1] range, i.e. 1/128): the
sample 0.98 encodes to code 255, which decodes to 1.0, an error of
0.02; moreover every sample in the interval [0.97, 0.98] (a
positive-measure set, so no almost-everywhere reading can excuse it)
has round-trip error at least 1/128. -/
theorem mu_roundtrip_error_exceeds_step :
    |(0.98:ℝ)| ≤ 1
    ∧ mu_decode (mu_encode (0.98:ℝ)) = 1
    ∧ ¬ |mu_decode (mu_encode (0.98:ℝ)) - 0.98| < 1 / 128
    ∧ ∀ x ∈ Set.Icc (0.97:ℝ) 0.98, 1 / 128 ≤ |mu_decode (mu_encode x) - x| := by
  have hdec : mu_decode (mu_encode (0.98:ℝ)) = 1 := by
    rw [mu_encode_098, mu_decode_255]
  refine ⟨by rw [abs_of_nonneg (by norm_num : (0:ℝ) ≤ 0.98)]; norm_num, hdec, ?_, ?_⟩
  · rw [hdec, abs_of_nonneg (by norm_num : (0:ℝ) ≤ 1 - 0.98)]
    norm_num
  · rintro x ⟨hx1, hx2⟩
    rcases mu_encode_range_Icc x hx1 hx2 with h | h
    · rw [h]
      have hd := mu_decode_254_le
      rw [abs_of_nonpos (by linarith : mu_decode 254 - x ≤ 0)]
      linarith
    · rw [h, mu_decode_255, abs_of_nonneg (by linarith : (0:ℝ) ≤ 1 - x)]
      linarith

/-- numpy reflect padding (`np.pad(x, p, mode="reflect")`, applied by
`librosa.stft` when `center=True`): mirror `p` samples on each side,
not repeating the edge sample. -/
def reflectPad (x : List OptR) (p : ℕ) : List OptR :=
  ((x.drop 1).take p).reverse ++ x ++ (x.reverse.drop 1).take p

/-- Framing of `librosa.stft`: after centre-padding by `n_fft // 2` on
each side, one frame of length `n_fft` starts every `hop_length`
samples; there are `1 + (len(padded) - n_fft) // hop_length` frames. -/
def stftFrames (cfg : APConfig) (audio : List OptR) : List (List OptR) :=
  let padded := reflectPad audio (cfg.n_fft / 2)
  (List.range (1 + (padded.length - cfg.n_fft) / cfg.hop_length)).map
    (fun t => (padded.drop (t * cfg.hop_length)).take cfg.n_fft)

/-- Collect a list of float samples into `some` list of reals exactly
when all of them are finite (a NaN anywhere in a frame poisons every
DFT bin of that frame). -/
def allSome : List OptR → Option (List ℝ)
  | [] => some []
  | none :: _ => none
  | some x :: t => (allSome t).map (fun xs => x :: xs)

/-- One magnitude bin of the Hann-windowed DFT of one frame (an entry
of `np.abs(x_stft)`); the numeric value is the external collaborator
`dftMag`. -/
def dftMagV (E : Collab) (frame : List OptR) (k : ℕ) : OptR :=
  (allSome frame).map (fun xs => E.dftMag xs k)

/-- `np.abs(librosa.stft(...)).T`: the frames × (1 + n_fft // 2)
magnitude matrix `spc`. -/
def stftMagT (E : Collab) (cfg : APConfig) (audio : List OptR) : List (List OptR) :=
  (stftFrames cfg audio).map
    (fun fr => (List.range (1 + cfg.n_fft / 2)).map (fun k => dftMagV E fr k))

/-- `librosa.filters.mel(sr, n_fft, n_mels, fmin, fmax)`: an
`n_mels × (1 + n_fft // 2)` matrix of filter weights (the weight
values are the external collaborator `melWeight`). -/
def melBasis (E : Collab) (sr n_fft n_mels : ℕ) (fmin fmax : ℝ) : List (List ℝ) :=
  (List.range n_mels).map (fun m =>
    (List.range (1 + n_fft / 2)).map (fun k => E.melWeight sr n_fft n_mels fmin fmax m k))

/-- One entry of `np.dot(spc, mel_basis.T)`: the dot product of a row
of magnitudes with a row of filter weights. -/
def odot (row : List OptR) (w : List ℝ) : OptR :=
  (List.zipWith (fun a c => omul a (some c)) row w).foldr oadd (some 0)

/-- `torch.Tensor(...).transpose(0, 1)` on a rectangular matrix with
`ncols` columns. -/
def transposeM (m : List (List OptR)) (ncols : ℕ) : List (List OptR) :=
  (List.range ncols).map (fun j => m.map (fun row => row.getD j (some 0)))

/-- `AudioPreprocessor.logmelfilterbank`: magnitude STFT (Hann window,
`pad_mode="reflect"`, centre padding), transposed; mel basis built with
the source's `fmin = 0 if fmin is None` and
`fmax = sampling_rate / 2 if fmax is None` fallbacks; matrix product;
elementwise `np.maximum(eps, ...)` with `eps = 1e-10` (the signature
default, never overridden by the callers); `np.log10`; and a final
transpose putting the mel axis first.  The sampling rate is `Option ℕ`
because the stored output rate may be `None`; `librosa.filters.mel`
raises on a `None` rate, modelled as `none`. -/
noncomputable def logmelfilterbank (E : Collab) (cfg : APConfig) (audio : List OptR)
    (sampling_rate : Option ℕ) (fmin0 fmax0 : Option ℝ) : Option (List (List OptR)) :=
  match sampling_rate with
  | none => none
  | some sr =>
      let spc := stftMagT E cfg audio
      let fmin := fmin0.getD 0
      let fmax := fmax0.getD ((sr : ℝ) / 2)
      let mel_basis := melBasis E sr cfg.n_fft cfg.mel_buckets fmin fmax
      let prod := spc.map (fun row =>
        mel_basis.map (fun mrow =>
          Option.map (Real.logb 10)
            (Option.map (fun v => max ((1:ℝ)/10^10) v) (odot row mrow))))
      some (transposeM prod cfg.mel_buckets)

/-- `AudioPreprocessor.mel_spec_orig_sr`: mel spectrogram at the input
sample rate (`fmin`/`fmax` keep their defaults 40 and 8000). -/
noncomputable def mel_spec_orig_sr (E : Collab) (cfg : APConfig) (audio : List OptR) :
    Option (List (List OptR)) :=
  logmelfilterbank E cfg audio (some cfg.input_sr) (some 40) (some 8000)

/-- `AudioPreprocessor.mel_spec_new_sr`: mel spectrogram at the stored
output sample rate `self.new_sr` (`fmin`/`fmax` keep their defaults). -/
noncomputable def mel_spec_new_sr (E : Collab) (cfg : APConfig) (audio : List OptR) :
    Option (List (List OptR)) :=
  logmelfilterbank E cfg audio cfg.output_sr (some 40) (some 8000)

/-- `self.mu_encode` on a 1-D float tensor: elementwise encoding. -/
noncomputable def mu_encodeL (xs : List OptR) : List (Option ℤ) :=
  xs.map (Option.map mu_encode)

/-- `self.mu_decode` on a 1-D code tensor: elementwise decoding. -/
noncomputable def mu_decodeL (cs : List (Option ℤ)) : List OptR :=
  cs.map (Option.map mu_decode)

/-- Result of `audio_to_wave_tensor`: either a float tensor or an
int64 mu-law code tensor. -/
inductive WaveTensor where
  | FT (x : ND OptR)
  | QT (x : ND (Option ℤ))

/-- `AudioPreprocessor.audio_to_wave_tensor(audio, normalize, mulaw)`;
the `torch.Tensor` conversion is the identity on sample values, and
the outer `Option` propagates a failure of `normalize_audio`. -/
noncomputable def audio_to_wave_tensor (E : Collab) (cfg : APConfig) (audio : ND OptR)
    (normalize mulaw : Bool) : Option WaveTensor :=
  if mulaw then
    if normalize then
      (normalize_audio E cfg audio).map (fun w => WaveTensor.QT (apply_mu_law (ND.vec w)))
    else some (WaveTensor.QT (apply_mu_law audio))
  else
    if normalize then
      (normalize_audio E cfg audio).map (fun w => WaveTensor.FT (ND.vec w))
    else some (WaveTensor.FT audio)

/-- `AudioPreprocessor.audio_to_mel_spec_tensor(audio, normalize)`:
both branches apply `self.mu_decode(self.mu_encode(...))` before the
mel spectrogram; the normalized branch feeds the normalized waveform
to `mel_spec_new_sr`, the other feeds the raw waveform to
`mel_spec_orig_sr` (`librosa.stft` requires 1-D input, so a non-1-D
raw array fails, modelled as `none`). -/
noncomputable def audio_to_mel_spec_tensor (E : Collab) (cfg : APConfig) (audio : ND OptR)
    (normalize : Bool) : Option (List (List OptR)) :=
  if normalize then
    (normalize_audio E cfg audio).bind
      (fun w => mel_spec_new_sr E cfg (mu_decodeL (mu_encodeL w)))
  else
    match audio with
    | ND.vec xs => mel_spec_orig_sr E cfg (mu_decodeL (mu_encodeL xs))
    | _ => none

/-- A small configuration (even FFT size 2, hop 1, one mel bucket, no
output rate) for instantiating theorems. -/
def cfgS : APConfig where
  input_sr := 1
  output_sr := none
  hop_length := 1
  n_fft := 2
  mel_buckets := 1

/-- A degenerate configuration with an odd FFT size 3 and hop 2, used
to exhibit the frame-count formula failing for odd `n_fft`. -/
def cfg3 : APConfig where
  input_sr := 16000
  output_sr := none
  hop_length := 2
  n_fft := 3
  mel_buckets := 1

lemma reflectPad_length (x : List OptR) (p : ℕ) (h : p + 1 ≤ x.length) :
    (reflectPad x p).length = x.length + 2 * p := by
  simp only [reflectPad, List.length_append, List.length_reverse, List.length_take,
    List.length_drop]
  omega

lemma stftFrames_length (cfg : APConfig) (audio : List OptR) :
    (stftFrames cfg audio).length
      = 1 + ((reflectPad audio (cfg.n_fft / 2)).length - cfg.n_fft) / cfg.hop_length := by
  simp [stftFrames]

lemma transposeM_length (m : List (List OptR)) (n : ℕ) : (transposeM m n).length = n := by
  simp [transposeM]

lemma transposeM_row_length (m : List (List OptR)) (n : ℕ) (row : List OptR)
    (h : row ∈ transposeM m n) : row.length = m.length := by
  simp only [transposeM, List.mem_map, List.mem_range] at h
  obtain ⟨j, hj, rfl⟩ := h
  simp

lemma logmel_some (E : Collab) (cfg : APConfig) (audio : List OptR) (sr : ℕ)
    (fmin0 fmax0 : Option ℝ) :
    logmelfilterbank E cfg audio (some sr) fmin0 fmax0
      = some (transposeM
          ((stftMagT E cfg audio).map (fun row =>
            (melBasis E sr cfg.n_fft cfg.mel_buckets (fmin0.getD 0)
                (fmax0.getD ((sr : ℝ) / 2))).map (fun mrow =>
              Option.map (Real.logb 10)
                (Option.map (fun v => max ((1:ℝ)/10^10) v) (odot row mrow)))))
          cfg.mel_buckets) := rfl

/-- C4 (amended): for an even FFT size (as in every realistic
configuration, including the defaults n_fft=1024, hop=256), a positive
hop length, and a mono waveform of length `L ≥ n_fft`, the
`logmelfilterbank` output is a `mel_buckets × (1 + L / hop_length)`
matrix with the mel axis first.  (For odd `n_fft` the centre padding
is `2 * (n_fft / 2) = n_fft - 1` samples and the frame count drops
below `1 + L / hop_length`; see the counterexample.) -/
theorem logmelfilterbank_shape (E : Collab) (cfg : APConfig)
    (h2 : cfg.n_fft % 2 = 0) (h1 : 0 < cfg.n_fft) (_hh : 0 < cfg.hop_length)
    (audio : List OptR) (hL : cfg.n_fft ≤ audio.length)
    (sr : ℕ) (fmin0 fmax0 : Option ℝ) :
    ∃ M, logmelfilterbank E cfg audio (some sr) fmin0 fmax0 = some M
      ∧ M.length = cfg.mel_buckets
      ∧ ∀ row ∈ M, row.length = 1 + audio.length / cfg.hop_length := by
  refine ⟨_, logmel_some E cfg audio sr fmin0 fmax0, transposeM_length _ _, ?_⟩
  intro row hrow
  rw [transposeM_row_length _ _ _ hrow, List.length_map]
  simp only [stftMagT, List.length_map]
  rw [stftFrames_length, reflectPad_length audio _ (by omega)]
  have he : audio.length + 2 * (cfg.n_fft / 2) - cfg.n_fft = audio.length := by omega
  rw [he]

/-- Witness for the amended C4: the shape statement instantiated at a
concrete even-FFT configuration and a two-sample waveform. -/
theorem logmelfilterbank_shape_witness :
    ∃ M, logmelfilterbank trivCollab cfgS [some 0, some 0] (some 1) (some 40) (some 8000)
        = some M
      ∧ M.length = cfgS.mel_buckets
      ∧ ∀ row ∈ M, row.length = 1 + ([some 0, some 0] : List OptR).length / cfgS.hop_length :=
  logmelfilterbank_shape trivCollab cfgS (by decide) (by decide) (by decide)
    [some 0, some 0] (by decide) 1 (some 40) (some 8000)

/-- C4 (counterexample): with `n_fft = 3` (odd) and `hop_length = 2`,
a mono waveform of length `L = 4 ≥ n_fft` produces a mel matrix whose
rows have 2 time frames, but the claimed formula gives
`1 + L / hop = 3`: librosa's centre padding adds `n_fft // 2` samples
per side, which is `n_fft - 1` (not `n_fft`) samples in total when
`n_fft` is odd. -/
theorem logmelfilterbank_frame_count_cex :
    (logmelfilterbank trivCollab cfg3 [some 0, some 0, some 0, some 0] (some 16000)
        (some 40) (some 8000)).map (fun M => (M.length, M.map List.length))
      = some (1, [2])
    ∧ (2:ℕ) ≠ 1 + ([some 0, some 0, some 0, some 0] : List OptR).length / cfg3.hop_length
    ∧ cfg3.n_fft ≤ ([some 0, some 0, some 0, some 0] : List OptR).length := by
  refine ⟨rfl, by decide, by decide⟩

lemma allSome_of_forall (l : List OptR) (h : ∀ a ∈ l, a.isSome) : (allSome l).isSome := by
  induction l with
  | nil => rfl
  | cons a t ih =>
    have ha := h a (List.mem_cons_self a t)
    have ht := ih (fun b hb => h b (List.mem_cons_of_mem a hb))
    obtain ⟨x, hx⟩ := Option.isSome_iff_exists.mp ha
    obtain ⟨xs, hxs⟩ := Option.isSome_iff_exists.mp ht
    subst hx
    show ((allSome t).map (fun xs => x :: xs)).isSome
    rw [hxs]
    rfl

lemma odot_isSome : ∀ (row : List OptR) (w : List ℝ),
    (∀ a ∈ row, a.isSome) → (odot row w).isSome := by
  intro row
  induction row with
  | nil => intro w _; cases w <;> rfl
  | cons a t ih =>
    intro w h
    cases w with
    | nil => rfl
    | cons c cw =>
      have ha := h a (List.mem_cons_self a t)
      have h2 := ih cw (fun b hb => h b (List.mem_cons_of_mem a hb))
      obtain ⟨x, hx⟩ := Option.isSome_iff_exists.mp ha
      obtain ⟨y, hy⟩ := Option.isSome_iff_exists.mp h2
      show (oadd (omul a (some c)) (odot t cw)).isSome
      rw [hx, hy]
      rfl

lemma reflectPad_sub (x : List OptR) (p : ℕ) : ∀ a ∈ reflectPad x p, a ∈ x := by
  intro a ha
  simp only [reflectPad, List.mem_append, List.mem_reverse] at ha
  rcases ha with (h | h) | h
  · exact List.drop_subset 1 x (List.take_subset p _ h)
  · exact h
  · exact List.mem_reverse.mp (List.drop_subset 1 _ (List.take_subset p _ h))

lemma stftFrames_sub (cfg : APConfig) (audio : List OptR) :
    ∀ fr ∈ stftFrames cfg audio, ∀ a ∈ fr, a ∈ audio := by
  intro fr hfr a ha
  simp only [stftFrames, List.mem_map, List.mem_range] at hfr
  obtain ⟨t, _, rfl⟩ := hfr
  exact reflectPad_sub audio _ a
    (List.drop_subset _ _ (List.take_subset _ _ ha))

lemma stftMagT_entries_isSome (E : Collab) (cfg : APConfig) (xs : List ℝ) :
    ∀ srow ∈ stftMagT E cfg (xs.map some), ∀ a ∈ srow, a.isSome := by
  intro srow hs a ha
  simp only [stftMagT, List.mem_map] at hs
  obtain ⟨fr, hfr, rfl⟩ := hs
  simp only [List.mem_map, List.mem_range] at ha
  obtain ⟨k, _, rfl⟩ := ha
  rw [dftMagV]
  have hall : ∀ b ∈ fr, b.isSome := by
    intro b hb
    have hbx := stftFrames_sub cfg (xs.map some) fr hfr b hb
    simp only [List.mem_map] at hbx
    obtain ⟨y, _, hy⟩ := hbx
    rw [← hy]
    rfl
  obtain ⟨ys, hys⟩ := Option.isSome_iff_exists.mp (allSome_of_forall fr hall)
  rw [hys]
  rfl

lemma logb_ten_eps : Real.logb 10 ((1:ℝ)/10^10) = -10 := by
  have h1 : ((1:ℝ)/10^10) = (10:ℝ) ^ (-10 : ℝ) := by
    rw [Real.rpow_neg (by norm_num : (0:ℝ) ≤ 10)]
    norm_num
  rw [h1]
  exact Real.logb_rpow (by norm_num) (by norm_num)

lemma logb_floor_ge (v : ℝ) : (-10:ℝ) ≤ Real.logb 10 (max ((1:ℝ)/10^10) v) :=
  calc (-10:ℝ) = Real.logb 10 ((1:ℝ)/10^10) := logb_ten_eps.symm
    _ ≤ Real.logb 10 (max ((1:ℝ)/10^10) v) :=
        Real.logb_le_logb_of_le (by norm_num) (by norm_num) (le_max_left _ _)

/-- C5: every entry of the `logmelfilterbank` output on a (finite)
waveform is a finite value at least `log10(1e-10) = -10`, because the
elementwise maximum with `eps = 1e-10` is taken before the base-10
logarithm; in particular no entry is `-inf` or NaN, even for silent
frames. -/
theorem logmelfilterbank_entries_floored (E : Collab) (cfg : APConfig) (xs : List ℝ)
    (sr : ℕ) (fmin0 fmax0 : Option ℝ) (M : List (List OptR))
    (hM : logmelfilterbank E cfg (xs.map some) (some sr) fmin0 fmax0 = some M) :
    (∀ row ∈ M, ∀ v ∈ row, ∃ r, v = some r ∧ (-10:ℝ) ≤ r)
    ∧ Real.logb 10 ((1:ℝ)/10^10) = -10 := by
  refine ⟨?_, logb_ten_eps⟩
  rw [logmel_some] at hM
  have hMeq := (Option.some_inj.mp hM).symm
  subst hMeq
  intro row hrow v hv
  simp only [transposeM, List.mem_map, List.mem_range] at hrow
  obtain ⟨j, _, rfl⟩ := hrow
  simp only [List.mem_map] at hv
  obtain ⟨r, ⟨srow, hsrow, rfl⟩, hrv⟩ := hv
  rw [show (List.map (fun mrow =>
        Option.map (Real.logb 10)
          (Option.map (fun v => max ((1:ℝ)/10^10) v) (odot srow mrow)))
        (melBasis E sr cfg.n_fft cfg.mel_buckets (fmin0.getD 0)
          (fmax0.getD ((sr : ℝ) / 2)))).getD j (some 0)
      = ((List.map (fun mrow =>
        Option.map (Real.logb 10)
          (Option.map (fun v => max ((1:ℝ)/10^10) v) (odot srow mrow)))
        (melBasis E sr cfg.n_fft cfg.mel_buckets (fmin0.getD 0)
          (fmax0.getD ((sr : ℝ) / 2)))).get? j).getD (some 0) from rfl] at hrv
  cases hget : (List.map (fun mrow =>
        Option.map (Real.logb 10)
          (Option.map (fun v => max ((1:ℝ)/10^10) v) (odot srow mrow)))
        (melBasis E sr cfg.n_fft cfg.mel_buckets (fmin0.getD 0)
          (fmax0.getD ((sr : ℝ) / 2)))).get? j with
  | none =>
      rw [hget] at hrv
      exact ⟨0, hrv.symm, by norm_num⟩
  | some w =>
      rw [hget] at hrv
      have hw : w ∈ List.map (fun mrow =>
          Option.map (Real.logb 10)
            (Option.map (fun v => max ((1:ℝ)/10^10) v) (odot srow mrow)))
          (melBasis E sr cfg.n_fft cfg.mel_buckets (fmin0.getD 0)
            (fmax0.getD ((sr : ℝ) / 2))) := List.get?_mem hget
      simp only [List.mem_map] at hw
      obtain ⟨mrow, _, hweq⟩ := hw
      have hd := odot_isSome srow mrow (stftMagT_entries_isSome E cfg xs srow hsrow)
      obtain ⟨u, hu⟩ := Option.isSome_iff_exists.mp hd
      rw [hu] at hweq
      refine ⟨Real.logb 10 (max ((1:ℝ)/10^10) u), ?_, logb_floor_ge u⟩
      rw [← hrv, ← hweq]
      rfl

/-- Witness for C5: the floor bound instantiated at a concrete
two-sample waveform and configuration. -/
theorem logmelfilterbank_entries_floored_witness :
    ∃ M, logmelfilterbank trivCollab cfgS (([0, 0] : List ℝ).map some) (some 1)
        (some 40) (some 8000) = some M
      ∧ ∀ row ∈ M, ∀ v ∈ row, ∃ r, v = some r ∧ (-10:ℝ) ≤ r :=
  ⟨_, rfl, (logmelfilterbank_entries_floored trivCollab cfgS [0, 0] 1
      (some 40) (some 8000) _ rfl).1⟩

/-- C3: `audio_to_mel_spec_tensor` applies the mu-law
encode-then-decode round trip in both branches; the `normalize=True`
branch computes the mel spectrogram at the stored output sample rate
from the fully normalized waveform, the `normalize=False` branch at
the input sample rate from the raw waveform. -/
theorem audio_to_mel_spec_mu_roundtrip (E : Collab) (cfg : APConfig) (xs : List OptR) :
    audio_to_mel_spec_tensor E cfg (ND.vec xs) true
      = logmelfilterbank E cfg
          (mu_decodeL (mu_encodeL (mkResample E cfg
            (cut_silence_from_beginning E (normalize_loudness E xs)))))
          cfg.output_sr (some 40) (some 8000)
    ∧ audio_to_mel_spec_tensor E cfg (ND.vec xs) false
      = logmelfilterbank E cfg (mu_decodeL (mu_encodeL xs))
          (some cfg.input_sr) (some 40) (some 8000) :=
  ⟨rfl, rfl⟩

/-- C7: the four flag combinations of `audio_to_wave_tensor`: raw
float waveform (both flags false), normalized waveform, mu-law-encoded
raw waveform, and mu-law-encoded normalized waveform. -/
theorem audio_to_wave_tensor_four_cases (E : Collab) (cfg : APConfig)
    (audio : ND OptR) (ys : List OptR) (h : to_mono audio = ND.vec ys) :
    audio_to_wave_tensor E cfg audio false false = some (WaveTensor.FT audio)
    ∧ audio_to_wave_tensor E cfg audio true false
        = some (WaveTensor.FT (ND.vec (mkResample E cfg
            (cut_silence_from_beginning E (normalize_loudness E ys)))))
    ∧ audio_to_wave_tensor E cfg audio false true
        = some (WaveTensor.QT (apply_mu_law audio))
    ∧ audio_to_wave_tensor E cfg audio true true
        = some (WaveTensor.QT (apply_mu_law (ND.vec (mkResample E cfg
            (cut_silence_from_beginning E (normalize_loudness E ys)))))) := by
  have hna : normalize_audio E cfg audio
      = some (mkResample E cfg (cut_silence_from_beginning E (normalize_loudness E ys))) := by
    rw [normalize_audio, h]
  refine ⟨rfl, ?_, rfl, ?_⟩ <;> simp [audio_to_wave_tensor, hna]

/-- Witness for C7: the four cases at a concrete one-sample waveform. -/
theorem audio_to_wave_tensor_four_cases_witness :
    audio_to_wave_tensor trivCollab cfg16 (ND.vec [some 1]) false false
        = some (WaveTensor.FT (ND.vec [some 1]))
    ∧ audio_to_wave_tensor trivCollab cfg16 (ND.vec [some 1]) true false
        = some (WaveTensor.FT (ND.vec (mkResample trivCollab cfg16
            (cut_silence_from_beginning trivCollab (normalize_loudness trivCollab [some 1])))))
    ∧ audio_to_wave_tensor trivCollab cfg16 (ND.vec [some 1]) false true
        = some (WaveTensor.QT (apply_mu_law (ND.vec [some 1])))
    ∧ audio_to_wave_tensor trivCollab cfg16 (ND.vec [some 1]) true true
        = some (WaveTensor.QT (apply_mu_law (ND.vec (mkResample trivCollab cfg16
            (cut_silence_from_beginning trivCollab (normalize_loudness trivCollab [some 1])))))) :=
  audio_to_wave_tensor_four_cases trivCollab cfg16 (ND.vec [some 1]) [some 1] rfl

/-- C10: with `output_sr` unset, `mel_spec_new_sr` still uses the
stored `new_sr` (it never falls back to the input rate), so the
normalized mel-spectrogram path fails (`librosa.filters.mel` rejects a
`None` rate) for every input. -/
theorem mel_spec_new_sr_requires_output_sr (E : Collab) (cfg : APConfig)
    (h : cfg.output_sr = none) (audio : ND OptR) :
    audio_to_mel_spec_tensor E cfg audio true = none
    ∧ ∀ a : List OptR, mel_spec_new_sr E cfg a
        = logmelfilterbank E cfg a cfg.output_sr (some 40) (some 8000) := by
  constructor
  · cases hna : normalize_audio E cfg audio with
    | none => simp [audio_to_mel_spec_tensor, hna]
    | some w => simp [audio_to_mel_spec_tensor, hna, mel_spec_new_sr, h, logmelfilterbank]
  · intro a
    rfl

/-- Witness for C10: failure of the normalized mel path at a concrete
configuration without an output rate. -/
theorem mel_spec_new_sr_requires_output_sr_witness :
    audio_to_mel_spec_tensor trivCollab cfgS (ND.vec [some 0]) true = none
    ∧ ∀ a : List OptR, mel_spec_new_sr trivCollab cfgS a
        = logmelfilterbank trivCollab cfgS a cfgS.output_sr (some 40) (some 8000) :=
  mel_spec_new_sr_requires_output_sr trivCollab cfgS rfl (ND.vec [some 0])

end ProcessAudio
